import Mathlib

/-!
Shallow embedding of the SignalForge native store
(`src/native/jsiStore.h`, `src/native/jsiStore.cpp`).

The C++ code is a registry of "signals": each signal holds a tagged scalar
value (`SignalValue`), a `uint64_t` version counter bumped on every write,
and a subscriber map; the store (`JSISignalStore`) owns a map from string
ids to signals, generates ids from a monotone counter plus a timestamp, and
exposes create/get/set/has/delete/getVersion/batchUpdate/count/clear.

Modelling choices:
* The embedding is sequential: each C++ member function becomes a pure Lean
  function from the explicit state (`Signal` / `JSISignalStore`) to the new
  state plus its result.  Mutexes and memory orderings guard the concurrent
  interleavings only and do not change the sequential meaning embedded here.
* `uint64_t` / `size_t` counters become `Nat` reduced `% 2 ^ 64` exactly
  where the C++ increment can wrap.
* `std::unordered_map` becomes an association list with unique keys:
  `operator[]=` is insert-or-assign, `erase` removes the key.  Iteration
  order of the C++ map is unspecified; the list fixes one order, and every
  statement proved about iteration is order-insensitive (counts, sets).
* A subscriber callback `std::function<void(const SignalValue&)>` becomes a
  pure function `SignalValue → Except String Unit`: its `Except` result is
  the model of the callback returning or throwing.  `Signal::setValue`
  records, for every registered subscriber, the invocation it performs
  (subscriber id, delivered value, callback outcome); the `try/catch (...)`
  of the C++ code is embedded by the new signal state being independent of
  every callback outcome.
* `throw std::runtime_error(msg)` in a store operation becomes returning
  `Except.error msg`.
* The timestamp `std::chrono::system_clock::now().time_since_epoch().count()`
  is an input of the environment, passed to `generateSignalId`/`createSignal`
  as an explicit `Int` argument and rendered in decimal like `operator<<`.
-/

namespace SignalForge

/-- Model of 2^64, the modulus of the C++ `uint64_t` and (64-bit) `size_t`
counters. -/
def uint64Card : Nat := 2 ^ 64

/-- `SignalValue::Type` (jsiStore.h lines 21-28): the six kinds of stored
value. -/
inductive SignalValueType where
  | Undefined
  | Null
  | Boolean
  | Number
  | String
  | Object
deriving DecidableEq

/-- `SignalValue` (jsiStore.h lines 19-48): a tagged scalar.  All three
payload fields exist in every value, as in the C++ class; `type_` says which
one is meaningful. -/
structure SignalValue where
  type_ : SignalValueType
  boolValue_ : Bool
  numberValue_ : Float
  stringValue_ : String

/-- The model of the external (JSI) value a store caller passes in or gets
back.  A structured object is opaque to the store; the model carries only
the text its `toString` yields, which is all `SignalValue`'s constructor
reads from it (jsiStore.cpp line 61). -/
inductive JSIValue where
  | undefined
  | null
  | boolean (b : Bool)
  | number (x : Float)
  | string (s : String)
  | object (text : String)

/-- `SignalValue::SignalValue()` (jsiStore.cpp lines 16-17): default
constructor, an Undefined value.  `stringValue_` is a default-constructed
`std::string`, i.e. empty. -/
def SignalValue.mkDefault : SignalValue :=
  { type_ := .Undefined, boolValue_ := false, numberValue_ := 0.0, stringValue_ := "" }

/-- `SignalValue::SignalValue(bool)` (jsiStore.cpp lines 22-23). -/
def SignalValue.ofBool (value : Bool) : SignalValue :=
  { type_ := .Boolean, boolValue_ := value, numberValue_ := 0.0, stringValue_ := "" }

/-- `SignalValue::SignalValue(double)` (jsiStore.cpp lines 28-29). -/
def SignalValue.ofNumber (value : Float) : SignalValue :=
  { type_ := .Number, boolValue_ := false, numberValue_ := value, stringValue_ := "" }

/-- `SignalValue::SignalValue(const std::string&)` (jsiStore.cpp lines 34-35). -/
def SignalValue.ofString (value : String) : SignalValue :=
  { type_ := .String, boolValue_ := false, numberValue_ := 0.0, stringValue_ := value }

/-- `SignalValue::SignalValue(jsi::Runtime&, const jsi::Value&)`
(jsiStore.cpp lines 41-63): classify an external value into one of the six
kinds; anything not a primitive is reduced to its text and tagged Object. -/
def SignalValue.ofJSI (value : JSIValue) : SignalValue :=
  match value with
  | .undefined => { type_ := .Undefined, boolValue_ := false, numberValue_ := 0.0, stringValue_ := "" }
  | .null => { type_ := .Null, boolValue_ := false, numberValue_ := 0.0, stringValue_ := "" }
  | .boolean b => { type_ := .Boolean, boolValue_ := b, numberValue_ := 0.0, stringValue_ := "" }
  | .number x => { type_ := .Number, boolValue_ := false, numberValue_ := x, stringValue_ := "" }
  | .string s => { type_ := .String, boolValue_ := false, numberValue_ := 0.0, stringValue_ := s }
  | .object text => { type_ := .Object, boolValue_ := false, numberValue_ := 0.0, stringValue_ := text }

/-- `SignalValue::getType` (jsiStore.h line 36). -/
def SignalValue.getType (v : SignalValue) : SignalValueType := v.type_

/-- `SignalValue::asBoolean` (jsiStore.h line 37): returns the stored payload
unconditionally. -/
def SignalValue.asBoolean (v : SignalValue) : Bool := v.boolValue_

/-- `SignalValue::asNumber` (jsiStore.h line 38). -/
def SignalValue.asNumber (v : SignalValue) : Float := v.numberValue_

/-- `SignalValue::asString` (jsiStore.h line 39). -/
def SignalValue.asString (v : SignalValue) : String := v.stringValue_

/-- `SignalValue::toJSI` (jsiStore.cpp lines 69-87): convert back to the
external representation; a total switch over the six kinds, where Object
yields the stored text as an external string. -/
def SignalValue.toJSI (v : SignalValue) : JSIValue :=
  match v.type_ with
  | .Undefined => .undefined
  | .Null => .null
  | .Boolean => .boolean v.boolValue_
  | .Number => .number v.numberValue_
  | .String => .string v.stringValue_
  | .Object => .string v.stringValue_

/-- The model of one subscriber callback: the delivered value in, and either
a normal return (`Except.ok`) or a thrown error (`Except.error`) out. -/
abbrev SubscriberCallback := SignalValue → Except String Unit

/-- One callback invocation performed by `Signal::setValue`: the subscriber
id, the value delivered to it, and the callback's outcome. -/
abbrev Notification := Nat × SignalValue × Except String Unit

/-- `Signal` (jsiStore.h lines 55-76): one value, its version counter, the
subscriber map and the next subscription id. -/
structure Signal where
  value_ : SignalValue
  version_ : Nat
  subscribers_ : List (Nat × SubscriberCallback)
  nextSubscriberId_ : Nat

/-- `Signal::Signal` (jsiStore.cpp lines 97-98): initial value, version 0,
no subscribers, next subscription id 0. -/
def Signal.init (initialValue : SignalValue) : Signal :=
  { value_ := initialValue, version_ := 0, subscribers_ := [], nextSubscriberId_ := 0 }

/-- `Signal::getValue` (jsiStore.cpp lines 104-107): copy out the current
value. -/
def Signal.getValue (s : Signal) : SignalValue := s.value_

/-- `Signal::getVersion` (jsiStore.h line 61): the atomic version load. -/
def Signal.getVersion (s : Signal) : Nat := s.version_

/-- `unordered_map::operator[]=` on the subscriber map: assign the key if
present, insert it otherwise. -/
def insertSubscriber : List (Nat × SubscriberCallback) → Nat → SubscriberCallback →
    List (Nat × SubscriberCallback)
  | [], id, cb => [(id, cb)]
  | (k, v) :: rest, id, cb =>
    if k = id then (id, cb) :: rest else (k, v) :: insertSubscriber rest id cb

/-- `Signal::setValue` (jsiStore.cpp lines 115-139): replace the value,
bump the version by one (`fetch_add(1)` on a `uint64_t`), then invoke every
subscriber registered at the time of the write with the just-written value.
The returned state does not depend on any callback outcome: this embeds the
`try { callback(currentValue); } catch (...) {}` that swallows a throwing
subscriber. -/
def Signal.setValue (s : Signal) (newValue : SignalValue) : Signal × List Notification :=
  ({ s with value_ := newValue, version_ := (s.version_ + 1) % uint64Card },
   s.subscribers_.map (fun p => (p.1, newValue, p.2 newValue)))

/-- `Signal::subscribe` (jsiStore.cpp lines 145-150): hand out the next
subscription id (a `size_t`, incremented) and store the callback under it. -/
def Signal.subscribe (s : Signal) (callback : SubscriberCallback) : Signal × Nat :=
  let id := s.nextSubscriberId_
  ({ s with subscribers_ := insertSubscriber s.subscribers_ id callback,
            nextSubscriberId_ := (id + 1) % uint64Card }, id)

/-- `Signal::unsubscribe` (jsiStore.cpp lines 155-158): erase the
subscription id from the map; erasing an absent key changes nothing. -/
def Signal.unsubscribe (s : Signal) (id : Nat) : Signal :=
  { s with subscribers_ := s.subscribers_.filter (fun p => p.1 ≠ id) }

/-- `JSISignalStore` (jsiStore.h lines 83-115): the id-to-signal map and the
id counter. -/
structure JSISignalStore where
  signals_ : List (String × Signal)
  nextSignalId_ : Nat

/-- `JSISignalStore::JSISignalStore` (jsiStore.cpp line 176): empty map,
counter 0. -/
def JSISignalStore.mkStore : JSISignalStore :=
  { signals_ := [], nextSignalId_ := 0 }

/-- `unordered_map::find` on the signal map. -/
def findSig : List (String × Signal) → String → Option Signal
  | [], _ => none
  | (k, s) :: rest, id => if k = id then some s else findSig rest id

/-- `unordered_map::operator[]=` on the signal map. -/
def assignSig : List (String × Signal) → String → Signal → List (String × Signal)
  | [], id, s => [(id, s)]
  | (k, v) :: rest, id, s =>
    if k = id then (id, s) :: rest else (k, v) :: assignSig rest id s

/-- `unordered_map::erase` on the signal map: afterwards the key is absent. -/
def eraseSig (m : List (String × Signal)) (id : String) : List (String × Signal) :=
  m.filter (fun p => p.1 ≠ id)

/-- `JSISignalStore::generateSignalId` (jsiStore.cpp lines 182-189): read
and bump the atomic counter, then render `"sig_" << counter << "_" << now`
in decimal, exactly as the `ostringstream` insertions do (`Nat.repr` is the
decimal rendering of an unsigned integer, `Int.repr` of a signed one). -/
def JSISignalStore.generateSignalId (st : JSISignalStore) (now : Int) :
    String × JSISignalStore :=
  let counter := st.nextSignalId_
  ("sig_" ++ Nat.repr counter ++ "_" ++ Int.repr now,
   { st with nextSignalId_ := (counter + 1) % uint64Card })

/-- `JSISignalStore::createSignal` (jsiStore.cpp lines 196-205): generate a
fresh id, insert a new `Signal` holding the initial value under it, return
the id. -/
def JSISignalStore.createSignal (st : JSISignalStore) (initialValue : SignalValue)
    (now : Int) : String × JSISignalStore :=
  let (id, st') := st.generateSignalId now
  (id, { st' with signals_ := assignSig st'.signals_ id (Signal.init initialValue) })

/-- `JSISignalStore::getSignal` (jsiStore.cpp lines 211-225): look the id up
and read the signal's value, or `throw std::runtime_error("Signal not
found: " + signalId)`. -/
def JSISignalStore.getSignal (st : JSISignalStore) (signalId : String) :
    Except String SignalValue :=
  match findSig st.signals_ signalId with
  | none => .error ("Signal not found: " ++ signalId)
  | some signal => .ok signal.getValue

/-- `JSISignalStore::setSignal` (jsiStore.cpp lines 232-246): look the id up
and delegate to the signal's write, or throw NotFound.  The write-back into
the map embeds the in-place mutation through the shared pointer. -/
def JSISignalStore.setSignal (st : JSISignalStore) (signalId : String)
    (value : SignalValue) : Except String (JSISignalStore × List Notification) :=
  match findSig st.signals_ signalId with
  | none => .error ("Signal not found: " ++ signalId)
  | some signal =>
    let (signal', notifs) := signal.setValue value
    .ok ({ st with signals_ := assignSig st.signals_ signalId signal' }, notifs)

/-- `JSISignalStore::hasSignal` (jsiStore.cpp lines 251-254). -/
def JSISignalStore.hasSignal (st : JSISignalStore) (signalId : String) : Bool :=
  (findSig st.signals_ signalId).isSome

/-- `JSISignalStore::deleteSignal` (jsiStore.cpp lines 260-263): erase the
key; erasing an absent key changes nothing and raises nothing. -/
def JSISignalStore.deleteSignal (st : JSISignalStore) (signalId : String) :
    JSISignalStore :=
  { st with signals_ := eraseSig st.signals_ signalId }

/-- `JSISignalStore::getSignalVersion` (jsiStore.cpp lines 270-284): look
the id up and read the signal's version, or throw NotFound. -/
def JSISignalStore.getSignalVersion (st : JSISignalStore) (signalId : String) :
    Except String Nat :=
  match findSig st.signals_ signalId with
  | none => .error ("Signal not found: " ++ signalId)
  | some signal => .ok signal.getVersion

/-- Phase 2 of `JSISignalStore::batchUpdate` (jsiStore.cpp lines 308-311):
apply each collected (signal, value) pair sequentially through the signal's
normal write.  The C++ phase writes through the shared pointers collected in
phase 1; in this sequential embedding the map cannot change between the
phases, so the id names the same signal and the write-back through the map
is that same mutation. -/
def applyUpdates (st : JSISignalStore) :
    List (String × SignalValue) → JSISignalStore × List (List Notification)
  | [] => (st, [])
  | (signalId, value) :: rest =>
    match findSig st.signals_ signalId with
    | none => applyUpdates st rest
    | some signal =>
      let (signal', notifs) := signal.setValue value
      let st' := { st with signals_ := assignSig st.signals_ signalId signal' }
      let (st'', rest_notifs) := applyUpdates st' rest
      (st'', notifs :: rest_notifs)

/-- `JSISignalStore::batchUpdate` (jsiStore.cpp lines 290-312): phase 1
collects, in order, every pair whose id is found in the map (missing ids are
skipped with no error); phase 2 applies each collected pair via the signal's
normal write.  The whole operation returns normally for every input. -/
def JSISignalStore.batchUpdate (st : JSISignalStore)
    (updates : List (String × SignalValue)) : JSISignalStore × List (List Notification) :=
  let found := updates.filter (fun p => (findSig st.signals_ p.1).isSome)
  applyUpdates st found

/-- The last value an update list assigns to a given id, if any: the folded
effect, in list order, of the pairs naming that id. -/
def lastValueFor (updates : List (String × SignalValue)) (sid : String) :
    Option SignalValue :=
  updates.foldl (fun acc p => if p.1 = sid then some p.2 else acc) none

/-- `JSISignalStore::getSignalCount` (jsiStore.cpp lines 317-320). -/
def JSISignalStore.getSignalCount (st : JSISignalStore) : Nat :=
  st.signals_.length

/-- `JSISignalStore::clear` (jsiStore.cpp lines 326-329). -/
def JSISignalStore.clear (st : JSISignalStore) : JSISignalStore :=
  { st with signals_ := [] }

/-- N sequential writes to one id through `JSISignalStore::setSignal`,
stopping at the first failure (each C++ call either throws or completes
before the next is issued). -/
def setSignalMany (st : JSISignalStore) (signalId : String) :
    List SignalValue → Except String JSISignalStore
  | [] => .ok st
  | v :: rest =>
    match st.setSignal signalId v with
    | .error e => .error e
    | .ok (st', _) => setSignalMany st' signalId rest

/-- A sequence of `createSignal` calls, each with its initial value and the
timestamp the clock read at that call; returns the final store and the ids
in call order. -/
def createMany (st : JSISignalStore) :
    List (SignalValue × Int) → JSISignalStore × List String
  | [] => (st, [])
  | (v, now) :: rest =>
    let (id, st') := st.createSignal v now
    let (st'', ids) := createMany st' rest
    (st'', id :: ids)

/-- K sequential writes to one `Signal` through `Signal::setValue`,
collecting each write's notifications. -/
def setValueMany (s : Signal) : List SignalValue → Signal × List (List Notification)
  | [] => (s, [])
  | v :: rest =>
    let (s', notifs) := s.setValue v
    let (s'', rest_notifs) := setValueMany s' rest
    (s'', notifs :: rest_notifs)

/-- A subscriber callback that always throws: a concrete input for the
error-isolation theorems. -/
def throwingCallback : SubscriberCallback := fun _ => .error "subscriber failed"

/-- A subscriber callback that always returns normally. -/
def okCallback : SubscriberCallback := fun _ => .ok ()

/-- A concrete signal with one throwing and one well-behaved subscriber. -/
def sampleSignal : Signal :=
  { value_ := SignalValue.mkDefault, version_ := 0,
    subscribers_ := [(0, throwingCallback), (1, okCallback)],
    nextSubscriberId_ := 2 }

/-- The values of a `SignalValue` that the six C++ constructors can actually
build (jsiStore.cpp lines 16-63): used to state properties of every
reachable value. -/
inductive IsConstructed : SignalValue → Prop
  | mkDefault : IsConstructed SignalValue.mkDefault
  | ofBool (b : Bool) : IsConstructed (SignalValue.ofBool b)
  | ofNumber (x : Float) : IsConstructed (SignalValue.ofNumber x)
  | ofString (s : String) : IsConstructed (SignalValue.ofString s)
  | ofJSI (j : JSIValue) : IsConstructed (SignalValue.ofJSI j)

/-- All subscriber ids of a signal are below its next-subscription-id
counter: true of `Signal::Signal`'s initial state and preserved by the
operations while the `size_t` counter has not wrapped. -/
def Signal.SubscriberIdsBounded (s : Signal) : Prop :=
  ∀ p ∈ s.subscribers_, p.1 < s.nextSubscriberId_

/-! ### Association-list lemmas for the signal map -/

theorem findSig_assignSig_self (m : List (String × Signal)) (id : String) (s : Signal) :
    findSig (assignSig m id s) id = some s := by
  induction m with
  | nil => simp [assignSig, findSig]
  | cons p rest ih =>
    by_cases h : p.1 = id
    · simp [assignSig, h, findSig]
    · simp [assignSig, h, findSig, ih]

theorem findSig_assignSig_ne (m : List (String × Signal)) (id id' : String) (s : Signal)
    (h : id' ≠ id) : findSig (assignSig m id s) id' = findSig m id' := by
  induction m with
  | nil => simp [assignSig, findSig, Ne.symm h]
  | cons p rest ih =>
    obtain ⟨k, v⟩ := p
    by_cases hk : k = id
    · subst hk
      simp [assignSig, findSig, Ne.symm h]
    · simp [assignSig, hk, findSig, ih]

theorem findSig_eq_none_iff (m : List (String × Signal)) (id : String) :
    findSig m id = none ↔ ∀ p ∈ m, p.1 ≠ id := by
  induction m with
  | nil => simp [findSig]
  | cons p rest ih =>
    by_cases h : p.1 = id
    · simp [findSig, h]
    · simp [findSig, h, ih]

theorem findSig_eraseSig_self (m : List (String × Signal)) (id : String) :
    findSig (eraseSig m id) id = none := by
  rw [findSig_eq_none_iff]
  intro p hp
  have := List.of_mem_filter hp
  simpa using this

theorem eraseSig_of_absent (m : List (String × Signal)) (id : String)
    (h : findSig m id = none) : eraseSig m id = m := by
  rw [findSig_eq_none_iff] at h
  exact List.filter_eq_self.mpr (fun p hp => by simpa using h p hp)

theorem hasSignal_iff_findSig (st : JSISignalStore) (sid : String) :
    st.hasSignal sid = true ↔ ∃ s, findSig st.signals_ sid = some s := by
  simp [JSISignalStore.hasSignal, Option.isSome_iff_exists]

/-! ### Single and repeated writes through the store -/

theorem setSignal_found (st : JSISignalStore) (sid : String) (v : SignalValue)
    (s : Signal) (h : findSig st.signals_ sid = some s) :
    st.setSignal sid v =
      .ok ({ st with signals_ := assignSig st.signals_ sid (s.setValue v).1 },
           (s.setValue v).2) := by
  simp [JSISignalStore.setSignal, h]

theorem getSignalVersion_ok_inv (st : JSISignalStore) (sid : String) (n : Nat)
    (h : st.getSignalVersion sid = .ok n) :
    ∃ s, findSig st.signals_ sid = some s ∧ s.version_ = n := by
  unfold JSISignalStore.getSignalVersion at h
  cases hf : findSig st.signals_ sid with
  | none => rw [hf] at h; exact absurd h (by simp)
  | some s =>
    rw [hf] at h
    exact ⟨s, rfl, by simpa [Signal.getVersion] using h⟩

theorem lastValue_foldl {α : Type} (vs : List α) (h : vs ≠ []) :
    ∀ d : α, vs.foldl (fun _ v => v) d = vs.getLast h := by
  induction vs with
  | nil => exact absurd rfl h
  | cons a l ih =>
    intro d
    cases l with
    | nil => simp [List.getLast]
    | cons b t =>
      have hne : (b :: t) ≠ [] := by simp
      calc (a :: b :: t).foldl (fun _ v => v) d
          = (b :: t).foldl (fun _ v => v) a := rfl
        _ = (b :: t).getLast hne := ih hne a
        _ = (a :: b :: t).getLast h := (List.getLast_cons hne).symm

theorem setSignalMany_found (sid : String) (vs : List SignalValue) :
    ∀ (st : JSISignalStore) (s : Signal), findSig st.signals_ sid = some s →
      s.version_ < uint64Card →
      ∃ st' s', setSignalMany st sid vs = .ok st' ∧
        findSig st'.signals_ sid = some s' ∧
        s'.version_ = (s.version_ + vs.length) % uint64Card ∧
        s'.value_ = vs.foldl (fun _ v => v) s.value_ ∧
        s'.subscribers_ = s.subscribers_ := by
  induction vs with
  | nil =>
    intro st s h hv
    exact ⟨st, s, rfl, h, by simp [Nat.mod_eq_of_lt hv], rfl, rfl⟩
  | cons v rest ih =>
    intro st s h hv
    have hstep := setSignal_found st sid v s h
    set s₁ : Signal := (s.setValue v).1 with hs₁
    set st₁ : JSISignalStore :=
      { st with signals_ := assignSig st.signals_ sid s₁ } with hst₁
    have hfind₁ : findSig st₁.signals_ sid = some s₁ := findSig_assignSig_self _ _ _
    have hv₁ : s₁.version_ < uint64Card := by
      have : 0 < uint64Card := by decide
      exact Nat.mod_lt _ this
    obtain ⟨st', s', hrun, hfind', hver, hval, hsubs⟩ := ih st₁ s₁ hfind₁ hv₁
    refine ⟨st', s', ?_, hfind', ?_, ?_, ?_⟩
    · simp [setSignalMany, hstep, hrun]
    · rw [hver]
      show ((s.version_ + 1) % uint64Card + rest.length) % uint64Card = _
      rw [Nat.mod_add_mod]
      simp [List.length_cons, Nat.add_assoc, Nat.add_comm 1 rest.length]
    · rw [hval]
      rfl
    · rw [hsubs, hs₁]
      simp [Signal.setValue]

/-! ### Claim theorems -/

/-- C1: for a signal whose version is 0, writing the values v1..vN
sequentially through `setSignal` succeeds, leaves `getSignalVersion` at
exactly N and `getSignal` at vN; after every prefix of k writes the version
is exactly k, so it starts at 0, goes up by exactly 1 on every successful
write and never decreases (the `uint64_t` counter does not wrap while the
number of writes stays below 2^64). -/
theorem setSignal_sequence_version_and_last_value
    (st : JSISignalStore) (sid : String) (vs : List SignalValue)
    (hver0 : st.getSignalVersion sid = .ok 0)
    (hne : vs ≠ [])
    (hlen : vs.length < uint64Card) :
    ∃ st', setSignalMany st sid vs = .ok st' ∧
      st'.getSignalVersion sid = .ok vs.length ∧
      st'.getSignal sid = .ok (vs.getLast hne) ∧
      ∀ k, k ≤ vs.length →
        ∃ stk, setSignalMany st sid (vs.take k) = .ok stk ∧
          stk.getSignalVersion sid = .ok k := by
  obtain ⟨s, hfind, hv0⟩ := getSignalVersion_ok_inv st sid 0 hver0
  have hvlt : s.version_ < uint64Card := by rw [hv0]; decide
  obtain ⟨st', s', hrun, hfind', hver, hval, _⟩ :=
    setSignalMany_found sid vs st s hfind hvlt
  refine ⟨st', hrun, ?_, ?_, ?_⟩
  · simp [JSISignalStore.getSignalVersion, hfind', Signal.getVersion, hver, hv0,
          Nat.mod_eq_of_lt hlen]
  · simp [JSISignalStore.getSignal, hfind', Signal.getValue, hval,
          lastValue_foldl vs hne]
  · intro k hk
    obtain ⟨stk, sk, hrunk, hfindk, hverk, _, _⟩ :=
      setSignalMany_found sid (vs.take k) st s hfind hvlt
    have hlenk : (vs.take k).length = k := by
      simp [List.length_take]
      omega
    refine ⟨stk, hrunk, ?_⟩
    simp [JSISignalStore.getSignalVersion, hfindk, Signal.getVersion, hverk, hv0, hlenk,
          Nat.mod_eq_of_lt (lt_of_le_of_lt hk hlen)]

/-- Witness for C1: a freshly created signal, two writes; the version ends
at 2 and the value at the second write's value. -/
theorem setSignal_sequence_version_and_last_value_witness :
    ∃ st', setSignalMany (JSISignalStore.mkStore.createSignal
        (SignalValue.ofBool true) 7).2 "sig_0_7"
        [SignalValue.ofString "a", SignalValue.ofString "b"] = .ok st' ∧
      st'.getSignalVersion "sig_0_7" = .ok 2 ∧
      st'.getSignal "sig_0_7" =
        .ok ([SignalValue.ofString "a", SignalValue.ofString "b"].getLast (by simp)) ∧
      ∀ k, k ≤ 2 →
        ∃ stk, setSignalMany (JSISignalStore.mkStore.createSignal
            (SignalValue.ofBool true) 7).2 "sig_0_7"
            ([SignalValue.ofString "a", SignalValue.ofString "b"].take k) = .ok stk ∧
          stk.getSignalVersion "sig_0_7" = .ok k :=
  setSignal_sequence_version_and_last_value _ "sig_0_7" _ (by rfl) (by simp) (by decide)

/-- C2: `createSignal` always returns normally, and the id it returns is
immediately present, reads back the initial value, and is at version 0. -/
theorem createSignal_present_value_version_zero
    (st : JSISignalStore) (v : SignalValue) (now : Int) :
    (st.createSignal v now).2.hasSignal (st.createSignal v now).1 = true ∧
    (st.createSignal v now).2.getSignal (st.createSignal v now).1 = .ok v ∧
    (st.createSignal v now).2.getSignalVersion (st.createSignal v now).1 = .ok 0 := by
  simp [JSISignalStore.createSignal, JSISignalStore.generateSignalId,
        JSISignalStore.hasSignal, JSISignalStore.getSignal,
        JSISignalStore.getSignalVersion, findSig_assignSig_self,
        Signal.init, Signal.getValue, Signal.getVersion]

/-- C3: `getSignal`, `setSignal` and `getSignalVersion` raise the
`"Signal not found: <id>"` error exactly when the id is absent, succeed
exactly when it is present, and every error any of them can raise is that
one message, which names the missing id.  (`createSignal`, `hasSignal` and
`deleteSignal` return plain values, not `Except`: they never fail by
type.) -/
theorem storeOps_notFound_iff_absent (st : JSISignalStore) (sid : String) :
    (st.getSignal sid = .error ("Signal not found: " ++ sid) ↔
      st.hasSignal sid = false) ∧
    (∀ e, st.getSignal sid = .error e → e = "Signal not found: " ++ sid) ∧
    (st.hasSignal sid = true ↔ ∃ v, st.getSignal sid = .ok v) ∧
    (∀ v, st.setSignal sid v = .error ("Signal not found: " ++ sid) ↔
      st.hasSignal sid = false) ∧
    (∀ v e, st.setSignal sid v = .error e → e = "Signal not found: " ++ sid) ∧
    (∀ v, st.hasSignal sid = true ↔ ∃ r, st.setSignal sid v = .ok r) ∧
    (st.getSignalVersion sid = .error ("Signal not found: " ++ sid) ↔
      st.hasSignal sid = false) ∧
    (∀ e, st.getSignalVersion sid = .error e → e = "Signal not found: " ++ sid) ∧
    (st.hasSignal sid = true ↔ ∃ n, st.getSignalVersion sid = .ok n) := by
  cases h : findSig st.signals_ sid <;>
    simp [JSISignalStore.getSignal, JSISignalStore.setSignal,
          JSISignalStore.getSignalVersion, JSISignalStore.hasSignal, h]

/-- C7: `deleteSignal` returns normally for every id (deleting an absent id
leaves the store exactly as it was), and afterwards the id is gone:
`hasSignal` is false and `getSignal` raises NotFound. -/
theorem deleteSignal_silent_and_removes (st : JSISignalStore) (sid : String) :
    (st.deleteSignal sid).hasSignal sid = false ∧
    (st.deleteSignal sid).getSignal sid = .error ("Signal not found: " ++ sid) ∧
    (st.hasSignal sid = false → st.deleteSignal sid = st) := by
  refine ⟨?_, ?_, ?_⟩
  · simp [JSISignalStore.deleteSignal, JSISignalStore.hasSignal, findSig_eraseSig_self]
  · simp [JSISignalStore.deleteSignal, JSISignalStore.getSignal, findSig_eraseSig_self]
  · intro h
    have hnone : findSig st.signals_ sid = none := by
      cases hf : findSig st.signals_ sid with
      | none => rfl
      | some s => simp [JSISignalStore.hasSignal, hf] at h
    simp [JSISignalStore.deleteSignal, eraseSig_of_absent st.signals_ sid hnone]

/-! ### Subscriber lemmas -/

theorem setValueMany_subscribers (vs : List SignalValue) :
    ∀ s : Signal, (setValueMany s vs).1.subscribers_ = s.subscribers_ := by
  induction vs with
  | nil => intro s; rfl
  | cons v rest ih =>
    intro s
    simpa [setValueMany] using ih (s.setValue v).1

theorem setValueMany_notifs (vs : List SignalValue) :
    ∀ s : Signal, (setValueMany s vs).2 =
      vs.map (fun v => s.subscribers_.map (fun p => (p.1, v, p.2 v))) := by
  induction vs with
  | nil => intro s; rfl
  | cons v rest ih =>
    intro s
    simp [setValueMany, Signal.setValue]
    exact ih _

theorem insertSubscriber_absent (l : List (Nat × SubscriberCallback)) (id : Nat)
    (cb : SubscriberCallback) (h : ∀ p ∈ l, p.1 ≠ id) :
    insertSubscriber l id cb = l ++ [(id, cb)] := by
  induction l with
  | nil => rfl
  | cons p rest ih =>
    obtain ⟨k, c⟩ := p
    have hp : k ≠ id := h (k, c) (by simp)
    simp [insertSubscriber, hp, ih (fun q hq => h q (by simp [hq]))]

/-- C5: a write with a throwing subscriber still completes fully — the value
is replaced and the version incremented exactly once — the invocation list
still has exactly one entry per registered subscriber in registry order, and
every registered subscriber (the others included) is invoked with the
written value; the failing callback's error shows up only inside its own
invocation record, never in the write's result. -/
theorem setValue_isolates_subscriber_errors
    (s : Signal) (v : SignalValue) (i : Nat) (cb : SubscriberCallback) (e : String)
    (_hmem : (i, cb) ∈ s.subscribers_) (_herr : cb v = .error e) :
    (s.setValue v).1.value_ = v ∧
    (s.setValue v).1.version_ = (s.version_ + 1) % uint64Card ∧
    (s.setValue v).2.map (fun p => p.1) = s.subscribers_.map (fun p => p.1) ∧
    ∀ j c, (j, c) ∈ s.subscribers_ → (j, v, c v) ∈ (s.setValue v).2 := by
  refine ⟨rfl, rfl, ?_, ?_⟩
  · simp [Signal.setValue, List.map_map, Function.comp]
  · intro j c hjc
    exact List.mem_map_of_mem _ hjc

/-- Witness for C5: a concrete signal with a throwing and a normal
subscriber; the write completes and both are invoked. -/
theorem setValue_isolates_subscriber_errors_witness :
    (sampleSignal.setValue (SignalValue.ofString "x")).1.value_ =
      SignalValue.ofString "x" ∧
    (sampleSignal.setValue (SignalValue.ofString "x")).1.version_ =
      (sampleSignal.version_ + 1) % uint64Card ∧
    (sampleSignal.setValue (SignalValue.ofString "x")).2.map (fun p => p.1) =
      sampleSignal.subscribers_.map (fun p => p.1) ∧
    ∀ j c, (j, c) ∈ sampleSignal.subscribers_ →
      (j, SignalValue.ofString "x", c (SignalValue.ofString "x")) ∈
        (sampleSignal.setValue (SignalValue.ofString "x")).2 :=
  setValue_isolates_subscriber_errors sampleSignal (SignalValue.ofString "x") 0
    throwingCallback "subscriber failed" (by simp [sampleSignal]) rfl

/-- C6: subscribing and then performing the writes vs delivers to the new
subscription exactly one invocation per write, carrying that write's value;
after unsubscribing it, further writes deliver nothing to it; unsubscribing
an id that no subscriber holds leaves the signal (registry included)
unchanged.  The hypothesis is the registry invariant every reachable signal
has: all subscription ids are below the next-id counter. -/
theorem subscribe_write_unsubscribe_delivery
    (s : Signal) (cb : SubscriberCallback) (vs ws : List SignalValue) (badId : Nat)
    (hb : s.SubscriberIdsBounded)
    (hbad : ∀ p ∈ s.subscribers_, p.1 ≠ badId) :
    (setValueMany (s.subscribe cb).1 vs).2.map
        (fun notifs => notifs.filter (fun p => p.1 == (s.subscribe cb).2)) =
      vs.map (fun v => [((s.subscribe cb).2, v, cb v)]) ∧
    (setValueMany (((setValueMany (s.subscribe cb).1 vs).1).unsubscribe
        (s.subscribe cb).2) ws).2.map
        (fun notifs => notifs.filter (fun p => p.1 == (s.subscribe cb).2)) =
      ws.map (fun _ => []) ∧
    s.unsubscribe badId = s := by
  have hsid : (s.subscribe cb).2 = s.nextSubscriberId_ := rfl
  have hne : ∀ p ∈ s.subscribers_, p.1 ≠ s.nextSubscriberId_ :=
    fun p hp => Nat.ne_of_lt (hb p hp)
  have hsubs₁ : (s.subscribe cb).1.subscribers_ =
      s.subscribers_ ++ [(s.nextSubscriberId_, cb)] := by
    simp [Signal.subscribe, insertSubscriber_absent s.subscribers_ _ cb hne]
  have hbase : ∀ v : SignalValue,
      (s.subscribers_.map (fun p => (p.1, v, p.2 v))).filter
        (fun p => p.1 == s.nextSubscriberId_) = [] := by
    intro v
    rw [List.filter_eq_nil_iff]
    intro q hq
    obtain ⟨p, hp, rfl⟩ := List.mem_map.mp hq
    simpa using hne p hp
  refine ⟨?_, ?_, ?_⟩
  · rw [setValueMany_notifs, hsid, List.map_map]
    refine List.map_congr_left (fun v _ => ?_)
    simp only [Function.comp]
    rw [hsubs₁, List.map_append, List.filter_append, hbase v]
    simp
  · rw [setValueMany_notifs, hsid]
    have hsubs₂ : (((setValueMany (s.subscribe cb).1 vs).1).unsubscribe
        s.nextSubscriberId_).subscribers_ = s.subscribers_ := by
      show ((setValueMany (s.subscribe cb).1 vs).1.subscribers_).filter
          (fun p => decide (p.1 ≠ s.nextSubscriberId_)) = s.subscribers_
      rw [setValueMany_subscribers, hsubs₁, List.filter_append]
      have h1 : s.subscribers_.filter
          (fun p => decide (p.1 ≠ s.nextSubscriberId_)) = s.subscribers_ :=
        List.filter_eq_self.mpr (fun p hp => by simpa using hne p hp)
      have h2 : ([(s.nextSubscriberId_, cb)].filter
          (fun p => decide (p.1 ≠ s.nextSubscriberId_))) = [] := by simp
      rw [h1, h2, List.append_nil]
    simp only [hsubs₂, List.map_map]
    refine List.map_congr_left (fun v _ => ?_)
    simp only [Function.comp]
    exact hbase v
  · have h1 : s.subscribers_.filter (fun p => decide (p.1 ≠ badId)) = s.subscribers_ :=
      List.filter_eq_self.mpr (fun p hp => by simpa using hbad p hp)
    show { s with subscribers_ :=
      s.subscribers_.filter (fun p => decide (p.1 ≠ badId)) } = s
    rw [h1]

/-! ### Batch-update lemmas -/

theorem lastValueFor_foldl_acc (sid : String) (l : List (String × SignalValue)) :
    ∀ acc : Option SignalValue,
      l.foldl (fun acc p => if p.1 = sid then some p.2 else acc) acc =
        match lastValueFor l sid with
        | some x => some x
        | none => acc := by
  induction l with
  | nil => intro acc; rfl
  | cons q rest ih =>
    intro acc
    show rest.foldl _ (if q.1 = sid then some q.2 else acc) = _
    rw [ih]
    have hl : lastValueFor (q :: rest) sid =
        match lastValueFor rest sid with
        | some x => some x
        | none => if q.1 = sid then some q.2 else none := by
      show rest.foldl _ (if q.1 = sid then some q.2 else none) = _
      rw [ih]
    rw [hl]
    cases lastValueFor rest sid with
    | some x => rfl
    | none => by_cases h : q.1 = sid <;> simp [h]

theorem applyUpdates_absent (l : List (String × SignalValue)) :
    ∀ (st : JSISignalStore) (sid : String), findSig st.signals_ sid = none →
      findSig (applyUpdates st l).1.signals_ sid = none := by
  induction l with
  | nil => intro st sid h; exact h
  | cons p rest ih =>
    intro st sid h
    obtain ⟨j, v⟩ := p
    cases hj : findSig st.signals_ j with
    | none => simpa [applyUpdates, hj] using ih st sid h
    | some sj =>
      have hne : sid ≠ j := by
        intro he
        rw [← he] at hj
        rw [h] at hj
        exact absurd hj (by simp)
      simp only [applyUpdates, hj]
      exact ih _ sid (by rw [findSig_assignSig_ne _ _ _ _ hne]; exact h)

theorem applyUpdates_found (l : List (String × SignalValue)) :
    ∀ (st : JSISignalStore) (sid : String) (s : Signal),
      findSig st.signals_ sid = some s → s.version_ < uint64Card →
      ∃ s', findSig (applyUpdates st l).1.signals_ sid = some s' ∧
        s'.version_ = (s.version_ + l.countP (fun p => p.1 == sid)) % uint64Card ∧
        s'.value_ = (lastValueFor l sid).getD s.value_ ∧
        s'.subscribers_ = s.subscribers_ := by
  induction l with
  | nil =>
    intro st sid s h hv
    exact ⟨s, h, by simp [List.countP_nil, Nat.mod_eq_of_lt hv], rfl, rfl⟩
  | cons p rest ih =>
    intro st sid s h hv
    obtain ⟨j, v⟩ := p
    cases hj : findSig st.signals_ j with
    | none =>
      have hne : j ≠ sid := by
        intro he
        rw [he, h] at hj
        exact absurd hj (by simp)
      obtain ⟨s', hf', hver, hval, hsubs⟩ := ih st sid s h hv
      refine ⟨s', by simpa [applyUpdates, hj] using hf', ?_, ?_, hsubs⟩
      · rw [hver]
        simp [List.countP_cons, hne]
      · rw [hval]
        show _ = (rest.foldl _ (if j = sid then some v else none)).getD s.value_
        simp [hne, lastValueFor]
    | some sj =>
      by_cases hje : j = sid
      · subst hje
        rw [h] at hj
        have hsj : sj = s := by simpa using hj.symm
        subst hsj
        set s₁ : Signal := (sj.setValue v).1 with hs₁
        set st₁ : JSISignalStore :=
          { st with signals_ := assignSig st.signals_ j s₁ } with hst₁
        have hf₁ : findSig st₁.signals_ j = some s₁ := findSig_assignSig_self _ _ _
        have hv₁ : s₁.version_ < uint64Card := Nat.mod_lt _ (by decide)
        obtain ⟨s', hf', hver, hval, hsubs⟩ := ih st₁ j s₁ hf₁ hv₁
        refine ⟨s', ?_, ?_, ?_, ?_⟩
        · simpa [applyUpdates, h] using hf'
        · rw [hver]
          show ((sj.version_ + 1) % uint64Card + _) % uint64Card = _
          rw [Nat.mod_add_mod]
          simp [List.countP_cons, Nat.add_assoc, Nat.add_comm 1]
        · rw [hval]
          show (lastValueFor rest j).getD s₁.value_ =
            (rest.foldl _ (if j = j then some v else none)).getD sj.value_
          rw [if_pos rfl, lastValueFor_foldl_acc]
          cases lastValueFor rest j with
          | some x => rfl
          | none => simp [hs₁, Signal.setValue]
        · rw [hsubs, hs₁]
          simp [Signal.setValue]
      · have hfne : findSig (assignSig st.signals_ j (sj.setValue v).1) sid = some s := by
          rw [findSig_assignSig_ne _ _ _ _ (Ne.symm hje)]
          exact h
        obtain ⟨s', hf', hver, hval, hsubs⟩ :=
          ih { st with signals_ := assignSig st.signals_ j (sj.setValue v).1 } sid s hfne hv
        refine ⟨s', by simpa [applyUpdates, hj] using hf', ?_, ?_, hsubs⟩
        · rw [hver]
          simp [List.countP_cons, hje]
        · rw [hval]
          show _ = (rest.foldl _ (if j = sid then some v else none)).getD s.value_
          simp [hje, lastValueFor]

theorem countP_key_filter_found (st : JSISignalStore) (sid : String) (s : Signal)
    (h : findSig st.signals_ sid = some s) (updates : List (String × SignalValue)) :
    (updates.filter (fun p => (findSig st.signals_ p.1).isSome)).countP
        (fun p => p.1 == sid) =
      updates.countP (fun p => p.1 == sid) := by
  rw [List.countP_filter]
  refine List.countP_congr (fun p _ => ?_)
  by_cases hp : p.1 = sid
  · simp [hp, h]
  · simp [hp]

theorem lastValueFor_filter_found (st : JSISignalStore) (sid : String) (s : Signal)
    (h : findSig st.signals_ sid = some s) (updates : List (String × SignalValue)) :
    lastValueFor (updates.filter (fun p => (findSig st.signals_ p.1).isSome)) sid =
      lastValueFor updates sid := by
  show (updates.filter _).foldl _ none = updates.foldl _ none
  generalize none = acc
  induction updates generalizing acc with
  | nil => rfl
  | cons p rest ih =>
    by_cases hkeep : (findSig st.signals_ p.1).isSome
    · rw [List.filter_cons_of_pos (by simpa using hkeep)]
      show (rest.filter _).foldl _ _ = rest.foldl _ _
      exact ih _
    · rw [List.filter_cons_of_neg (by simpa using hkeep)]
      have hne : p.1 ≠ sid := by
        intro he
        rw [he, h] at hkeep
        exact hkeep (by simp)
      show (rest.filter _).foldl _ acc = rest.foldl _ (if p.1 = sid then some p.2 else acc)
      rw [if_neg hne]
      exact ih _

/-- C4: `batchUpdate` returns normally for every input (its result type is a
plain store, not `Except`); every id present when the call starts is updated
through the signal's normal write — its version goes up by exactly one per
pair naming it and its value ends at the last value the list assigns it,
with its subscriber registry intact — while ids absent from the store are
skipped silently: they stay absent, and no other entry is rolled back on
their account. -/
theorem batchUpdate_applies_found_skips_unknown
    (st : JSISignalStore) (updates : List (String × SignalValue)) (sid : String) :
    (findSig st.signals_ sid = none →
      findSig (st.batchUpdate updates).1.signals_ sid = none) ∧
    (∀ s, findSig st.signals_ sid = some s → s.version_ < uint64Card →
      ∃ s', findSig (st.batchUpdate updates).1.signals_ sid = some s' ∧
        s'.version_ = (s.version_ + updates.countP (fun p => p.1 == sid)) % uint64Card ∧
        s'.value_ = (lastValueFor updates sid).getD s.value_ ∧
        s'.subscribers_ = s.subscribers_) := by
  constructor
  · intro h
    exact applyUpdates_absent _ st sid h
  · intro s h hv
    obtain ⟨s', hf', hver, hval, hsubs⟩ :=
      applyUpdates_found (updates.filter (fun p => (findSig st.signals_ p.1).isSome))
        st sid s h hv
    refine ⟨s', hf', ?_, ?_, hsubs⟩
    · rw [hver, countP_key_filter_found st sid s h]
    · rw [hval, lastValueFor_filter_found st sid s h]

/-- Witness for C6: one prior throwing subscriber, a fresh subscription, two
writes, then unsubscribe followed by one more write; unsubscribing the
unknown id 5 is a no-op. -/
theorem subscribe_write_unsubscribe_delivery_witness :
    (setValueMany (sampleSignal.subscribe okCallback).1
        [SignalValue.ofString "a", SignalValue.ofString "b"]).2.map
        (fun notifs => notifs.filter
          (fun p => p.1 == (sampleSignal.subscribe okCallback).2)) =
      [SignalValue.ofString "a", SignalValue.ofString "b"].map
        (fun v => [((sampleSignal.subscribe okCallback).2, v, okCallback v)]) ∧
    (setValueMany (((setValueMany (sampleSignal.subscribe okCallback).1
        [SignalValue.ofString "a", SignalValue.ofString "b"]).1).unsubscribe
        (sampleSignal.subscribe okCallback).2) [SignalValue.ofString "c"]).2.map
        (fun notifs => notifs.filter
          (fun p => p.1 == (sampleSignal.subscribe okCallback).2)) =
      [SignalValue.ofString "c"].map (fun _ => []) ∧
    sampleSignal.unsubscribe 5 = sampleSignal :=
  subscribe_write_unsubscribe_delivery sampleSignal okCallback
    [SignalValue.ofString "a", SignalValue.ofString "b"] [SignalValue.ofString "c"] 5
    (by intro p hp; simp [sampleSignal] at hp; rcases hp with h | h <;> simp [h, sampleSignal])
    (by intro p hp; simp [sampleSignal] at hp; rcases hp with h | h <;> simp [h])

/-! ### Decimal rendering: the `ostringstream` insertions of
`generateSignalId` render the counter in decimal; distinct counters give
distinct id strings. -/

theorem toDigitsCore_append (f : Nat) :
    ∀ (n : Nat) (acc : List Char),
      Nat.toDigitsCore 10 f n acc = Nat.toDigitsCore 10 f n [] ++ acc := by
  induction f with
  | zero => intro n acc; simp [Nat.toDigitsCore]
  | succ f ih =>
    intro n acc
    simp only [Nat.toDigitsCore]
    by_cases h : n / 10 = 0
    · simp [h]
    · simp only [h, if_neg, ite_false]
      rw [ih (n / 10) (Nat.digitChar (n % 10) :: acc), ih (n / 10) [Nat.digitChar (n % 10)]]
      simp

theorem toDigitsCore_fuel (n : Nat) :
    ∀ (f₁ f₂ : Nat) (acc : List Char), n < f₁ → n < f₂ →
      Nat.toDigitsCore 10 f₁ n acc = Nat.toDigitsCore 10 f₂ n acc := by
  induction n using Nat.strong_induction_on with
  | _ n ih =>
    intro f₁ f₂ acc h₁ h₂
    match f₁, f₂ with
    | g₁ + 1, g₂ + 1 =>
      simp only [Nat.toDigitsCore]
      by_cases h : n / 10 = 0
      · simp [h]
      · simp only [h, ite_false]
        have hn : 0 < n := Nat.pos_of_ne_zero (fun hz => h (by simp [hz]))
        have hdiv : n / 10 < n := Nat.div_lt_self hn (by decide)
        exact ih (n / 10) hdiv g₁ g₂ _ (by omega) (by omega)

theorem toDigits_small {n : Nat} (h : n < 10) :
    Nat.toDigits 10 n = [Nat.digitChar n] := by
  simp [Nat.toDigits, Nat.toDigitsCore, Nat.div_eq_of_lt h, Nat.mod_eq_of_lt h]

theorem toDigits_big {n : Nat} (h : 10 ≤ n) :
    Nat.toDigits 10 n = Nat.toDigits 10 (n / 10) ++ [Nat.digitChar (n % 10)] := by
  have hdiv0 : n / 10 ≠ 0 := by
    intro hz
    have := Nat.div_eq_of_lt (show n < 10 by omega)
    omega
  show Nat.toDigitsCore 10 (n + 1) n [] = _
  simp only [Nat.toDigitsCore, hdiv0, ite_false]
  rw [toDigitsCore_append]
  have hdiv : n / 10 < n := Nat.div_lt_self (by omega) (by decide)
  rw [toDigitsCore_fuel (n / 10) n (n / 10 + 1) [] (by omega) (by omega)]
  rfl

theorem toDigits_ne_nil (n : Nat) : Nat.toDigits 10 n ≠ [] := by
  by_cases h : n < 10
  · rw [toDigits_small h]; simp
  · rw [toDigits_big (by omega)]; simp

theorem digitChar_isDigit {k : Nat} (h : k < 10) :
    (Nat.digitChar k).isDigit = true := by
  interval_cases k <;> decide

theorem toDigits_isDigit (n : Nat) :
    ∀ c ∈ Nat.toDigits 10 n, c.isDigit = true := by
  induction n using Nat.strong_induction_on with
  | _ n ih =>
    intro c hc
    by_cases h : n < 10
    · rw [toDigits_small h] at hc
      simp at hc
      subst hc
      exact digitChar_isDigit h
    · rw [toDigits_big (by omega)] at hc
      rw [List.mem_append] at hc
      rcases hc with hc | hc
      · exact ih (n / 10) (Nat.div_lt_self (by omega) (by decide)) c hc
      · simp at hc
        subst hc
        exact digitChar_isDigit (Nat.mod_lt _ (by decide))

theorem digitChar_inj {a b : Nat} (ha : a < 10) (hb : b < 10)
    (h : Nat.digitChar a = Nat.digitChar b) : a = b := by
  interval_cases a <;> interval_cases b <;> first | rfl | exact absurd h (by decide)

theorem toDigits_inj (a : Nat) :
    ∀ b : Nat, Nat.toDigits 10 a = Nat.toDigits 10 b → a = b := by
  induction a using Nat.strong_induction_on with
  | _ a ih =>
    intro b h
    by_cases ha : a < 10 <;> by_cases hb : b < 10
    · rw [toDigits_small ha, toDigits_small hb] at h
      simp at h
      exact digitChar_inj ha hb h
    · rw [toDigits_small ha, toDigits_big (show 10 ≤ b by omega)] at h
      have hlen := congrArg List.length h
      simp at hlen
      have hne := toDigits_ne_nil (b / 10)
      cases hd : Nat.toDigits 10 (b / 10) with
      | nil => exact absurd hd hne
      | cons x xs => rw [hd] at hlen; simp at hlen
    · rw [toDigits_big (show 10 ≤ a by omega), toDigits_small hb] at h
      have hlen := congrArg List.length h
      simp at hlen
      have hne := toDigits_ne_nil (a / 10)
      cases hd : Nat.toDigits 10 (a / 10) with
      | nil => exact absurd hd hne
      | cons x xs => rw [hd] at hlen; simp at hlen
    · rw [toDigits_big (show 10 ≤ a by omega), toDigits_big (show 10 ≤ b by omega)] at h
      obtain ⟨h1, h2⟩ := List.append_inj' h (by simp)
      have hda : a / 10 = b / 10 :=
        ih (a / 10) (Nat.div_lt_self (by omega) (by decide)) (b / 10) h1
      have hma : a % 10 = b % 10 := by
        simp at h2
        exact digitChar_inj (Nat.mod_lt _ (by decide)) (Nat.mod_lt _ (by decide)) h2
      omega

theorem natRepr_inj {a b : Nat} (h : Nat.repr a = Nat.repr b) : a = b := by
  have hd : Nat.toDigits 10 a = Nat.toDigits 10 b := by
    have := congrArg String.data h
    simpa [Nat.repr, List.asString] using this
  exact toDigits_inj a b hd

theorem natRepr_no_underscore (n : Nat) :
    ∀ c ∈ (Nat.repr n).data, c ≠ '_' := by
  intro c hc
  have hdig : c.isDigit = true := by
    apply toDigits_isDigit n
    simpa [Nat.repr, List.asString] using hc
  intro he
  subst he
  exact absurd hdig (by decide)

theorem split_at_first_underscore :
    ∀ (a₁ : List Char) (b₁ : List Char) (a₂ : List Char) (b₂ : List Char),
      (∀ c ∈ a₁, c ≠ '_') → (∀ c ∈ a₂, c ≠ '_') →
      a₁ ++ '_' :: b₁ = a₂ ++ '_' :: b₂ → a₁ = a₂ := by
  intro a₁
  induction a₁ with
  | nil =>
    intro b₁ a₂ b₂ _ h₂ h
    cases a₂ with
    | nil => rfl
    | cons x xs =>
      simp at h
      exact absurd h.1.symm (h₂ x (by simp))
  | cons x xs ih =>
    intro b₁ a₂ b₂ h₁ h₂ h
    cases a₂ with
    | nil =>
      simp at h
      exact absurd h.1 (h₁ x (by simp))
    | cons y ys =>
      simp at h
      obtain ⟨hxy, hrest⟩ := h
      subst hxy
      have := ih b₁ ys b₂ (fun c hc => h₁ c (by simp [hc]))
        (fun c hc => h₂ c (by simp [hc])) hrest
      simp [this]

theorem generatedId_counter_inj (c₁ c₂ : Nat) (t₁ t₂ : Int) (hne : c₁ ≠ c₂) :
    ("sig_" ++ Nat.repr c₁ ++ "_" ++ Int.repr t₁ : String) ≠
      "sig_" ++ Nat.repr c₂ ++ "_" ++ Int.repr t₂ := by
  intro h
  have h0 := congrArg String.data h
  simp only [String.data_append] at h0
  simp only [List.append_assoc, List.cons_append, List.nil_append,
    List.singleton_append, List.cons.injEq] at h0
  have hdata : (Nat.repr c₁).data ++ '_' :: (Int.repr t₁).data =
      (Nat.repr c₂).data ++ '_' :: (Int.repr t₂).data := by
    simpa using h0
  have hrepr : (Nat.repr c₁).data = (Nat.repr c₂).data :=
    split_at_first_underscore (Nat.repr c₁).data (Int.repr t₁).data
      (Nat.repr c₂).data (Int.repr t₂).data
      (natRepr_no_underscore c₁) (natRepr_no_underscore c₂) hdata
  exact hne (natRepr_inj (congrArg String.mk hrepr))

/-! ### Id uniqueness across a sequence of creations -/

theorem createMany_ids_shape (inits : List (SignalValue × Int)) :
    ∀ (st : JSISignalStore),
      st.nextSignalId_ + inits.length ≤ uint64Card →
      ∀ idx ∈ (createMany st inits).2,
        ∃ c t, idx = "sig_" ++ Nat.repr c ++ "_" ++ Int.repr t ∧
          st.nextSignalId_ ≤ c ∧ c < st.nextSignalId_ + inits.length := by
  induction inits with
  | nil => intro st _ idx hmem; simp [createMany] at hmem
  | cons p rest ih =>
    intro st hlen idx hmem
    obtain ⟨v, now⟩ := p
    simp only [createMany, JSISignalStore.createSignal,
      JSISignalStore.generateSignalId, List.mem_cons] at hmem
    rcases hmem with hmem | hmem
    · exact ⟨st.nextSignalId_, now, hmem, Nat.le_refl _, by simp [List.length_cons]⟩
    · have hr : rest ≠ [] := by
        intro hz
        subst hz
        simp [createMany] at hmem
      have hrlen : 1 ≤ rest.length := by
        cases rest with
        | nil => exact absurd rfl hr
        | cons q qs => simp
      simp only [List.length_cons] at hlen
      have hmod : (st.nextSignalId_ + 1) % uint64Card = st.nextSignalId_ + 1 :=
        Nat.mod_eq_of_lt (by omega)
      obtain ⟨c, t, heq, hc₁, hc₂⟩ := ih _ (by
        show (st.nextSignalId_ + 1) % uint64Card + rest.length ≤ uint64Card
        rw [hmod]; omega) idx hmem
      have hc₁' : (st.nextSignalId_ + 1) % uint64Card ≤ c := hc₁
      have hc₂' : c < (st.nextSignalId_ + 1) % uint64Card + rest.length := hc₂
      rw [hmod] at hc₁' hc₂'
      exact ⟨c, t, heq, by omega, by simp [List.length_cons]; omega⟩

/-- C8: ids handed out by `createSignal` never repeat: starting from any
counter state that cannot wrap over the run (in particular the process-long
run from counter 0 with fewer than 2^64 creations), the ids returned by any
sequence of `createSignal` calls — whatever each call's initial value and
clock reading — are pairwise distinct, because each id embeds the decimal
rendering of its (monotonically incremented, never reused) counter value. -/
theorem createMany_ids_pairwise_distinct
    (st : JSISignalStore) (inits : List (SignalValue × Int))
    (hlen : st.nextSignalId_ + inits.length ≤ uint64Card) :
    (createMany st inits).2.Pairwise (· ≠ ·) := by
  induction inits generalizing st with
  | nil => simp [createMany]
  | cons p rest ih =>
    obtain ⟨v, now⟩ := p
    simp only [createMany, JSISignalStore.createSignal,
      JSISignalStore.generateSignalId]
    rw [List.pairwise_cons]
    simp only [List.length_cons] at hlen
    constructor
    · intro y hy
      have hr : rest ≠ [] := by
        intro hz
        subst hz
        simp [createMany] at hy
      have hrlen : 1 ≤ rest.length := by
        cases rest with
        | nil => exact absurd rfl hr
        | cons q qs => simp
      have hmod : (st.nextSignalId_ + 1) % uint64Card = st.nextSignalId_ + 1 :=
        Nat.mod_eq_of_lt (by omega)
      obtain ⟨c, t, heq, hc₁, _⟩ := createMany_ids_shape rest _ (by
        show (st.nextSignalId_ + 1) % uint64Card + rest.length ≤ uint64Card
        rw [hmod]; omega) y hy
      have hc₁' : (st.nextSignalId_ + 1) % uint64Card ≤ c := hc₁
      rw [hmod] at hc₁'
      rw [heq]
      exact generatedId_counter_inj st.nextSignalId_ c now t (by omega)
    · refine ih _ ?_
      show (st.nextSignalId_ + 1) % uint64Card + rest.length ≤ uint64Card
      have hle := Nat.mod_le (st.nextSignalId_ + 1) uint64Card
      omega

/-- Witness for C8: two creations with the same clock reading still return
distinct ids. -/
theorem createMany_ids_pairwise_distinct_witness :
    (createMany JSISignalStore.mkStore
      [(SignalValue.mkDefault, 0), (SignalValue.mkDefault, 0)]).2.Pairwise (· ≠ ·) :=
  createMany_ids_pairwise_distinct JSISignalStore.mkStore
    [(SignalValue.mkDefault, 0), (SignalValue.mkDefault, 0)] (by decide)

/-- C9: conversion back to the external representation is defined for all
six kinds (and is a plain total function by type, so it never fails); it
never yields a structured object, and an Object-kind value converts to an
external string holding the stored text form. -/
theorem toJSI_total_object_as_text (v : SignalValue) :
    (∀ text, v.toJSI ≠ JSIValue.object text) ∧
    (v.getType = SignalValueType.Object → v.toJSI = JSIValue.string v.asString) := by
  constructor
  · intro text
    cases hv : v.type_ <;> simp [SignalValue.toJSI, hv]
  · intro h
    have h' : v.type_ = SignalValueType.Object := h
    simp [SignalValue.toJSI, h', SignalValue.asString]

/-- C10: every value the C++ constructors can build has all payload fields
initialized, so the mismatched accessors are total and deterministic: a
non-Boolean value reads `asBoolean` as false, a non-Number value reads
`asNumber` as 0.0, and a value of kind other than String/Object reads
`asString` as the empty string. -/
theorem constructed_accessor_defaults (v : SignalValue) (h : IsConstructed v) :
    (v.getType ≠ SignalValueType.Boolean → v.asBoolean = false) ∧
    (v.getType ≠ SignalValueType.Number → v.asNumber = 0.0) ∧
    (v.getType ≠ SignalValueType.String → v.getType ≠ SignalValueType.Object →
      v.asString = "") := by
  cases h with
  | mkDefault => exact ⟨fun _ => rfl, fun _ => rfl, fun _ _ => rfl⟩
  | ofBool b => exact ⟨fun hc => absurd rfl hc, fun _ => rfl, fun _ _ => rfl⟩
  | ofNumber x => exact ⟨fun _ => rfl, fun hc => absurd rfl hc, fun _ _ => rfl⟩
  | ofString s => exact ⟨fun _ => rfl, fun _ => rfl, fun hc _ => absurd rfl hc⟩
  | ofJSI j =>
    cases j with
    | undefined => exact ⟨fun _ => rfl, fun _ => rfl, fun _ _ => rfl⟩
    | null => exact ⟨fun _ => rfl, fun _ => rfl, fun _ _ => rfl⟩
    | boolean b => exact ⟨fun hc => absurd rfl hc, fun _ => rfl, fun _ _ => rfl⟩
    | number x => exact ⟨fun _ => rfl, fun hc => absurd rfl hc, fun _ _ => rfl⟩
    | string s => exact ⟨fun _ => rfl, fun _ => rfl, fun hc _ => absurd rfl hc⟩
    | object text => exact ⟨fun _ => rfl, fun _ => rfl, fun _ hc => absurd rfl hc⟩

/-- Witness for C10 at the concrete constructed value `ofBool true`. -/
theorem constructed_accessor_defaults_witness :
    ((SignalValue.ofBool true).getType ≠ SignalValueType.Boolean →
      (SignalValue.ofBool true).asBoolean = false) ∧
    ((SignalValue.ofBool true).getType ≠ SignalValueType.Number →
      (SignalValue.ofBool true).asNumber = 0.0) ∧
    ((SignalValue.ofBool true).getType ≠ SignalValueType.String →
      (SignalValue.ofBool true).getType ≠ SignalValueType.Object →
      (SignalValue.ofBool true).asString = "") :=
  constructed_accessor_defaults (SignalValue.ofBool true) (IsConstructed.ofBool true)

end SignalForge
